import Mathlib

/-
Verification of the pci-context-store core: the encryption layer, the
encrypted vault over a storage backend, the replicated-map (CRDT) layer and
the synced vault that composes them.  Shallow embedding: byte sequences are
lists of naturals below 256, timestamps are opaque strings, fallible
operations return Except, and the implicit randomness of the source
(fresh keys, fresh IVs) is passed as explicit parameters.
-/

set_option maxHeartbeats 1000000

namespace PCI

/-- Error taxonomy of the core, following spec section 7. -/
inductive VaultError where
  | notInitialized
  | invalidKeyLength
  | authenticationFailure
  | malformedDelta
deriving DecidableEq

/-- Encrypted payload with ciphertext, IV, authentication tag and optional
salt, mirroring EncryptedData of src/src/crypto/index.ts.  The base64
transport encoding of the source is a bijection on byte sequences and is
elided: fields hold the raw bytes. -/
structure EncryptedData where
  ciphertext : List Nat
  iv : List Nat
  authTag : List Nat
  salt : Option (List Nat)
deriving DecidableEq

/-- Modelled from the spec: the AES-256-GCM primitive itself is provided by
node:crypto and is absent from the source.  The spec (section 4.1) requires an
authenticated symmetric cipher; it is modelled as an ideal stream cipher whose
keystream byte i is derived from the 32-byte key and the 12-byte IV. -/
def keystream (key iv : List Nat) (i : Nat) : Nat :=
  (key.getD (i % 32) 0 + iv.getD (i % 12) 0) % 256

/-- Modelled from the spec: byte-wise encryption under the ideal keystream,
starting at stream position i. -/
def encBytes (key iv : List Nat) : Nat → List Nat → List Nat
  | _, [] => []
  | i, b :: bs => (b + keystream key iv i) % 256 :: encBytes key iv (i + 1) bs

/-- Modelled from the spec: byte-wise decryption inverting encBytes. -/
def decBytes (key iv : List Nat) : Nat → List Nat → List Nat
  | _, [] => []
  | i, b :: bs => (b + 256 - keystream key iv i) % 256 :: decBytes key iv (i + 1) bs

/-- Modelled from the spec: the authentication tag of an ideal authenticated
cipher, an injective function of the key, the IV and the ciphertext, so that
verification fails exactly when any of the three differs. -/
def tagOf (key iv c : List Nat) : List Nat := key ++ iv ++ c

/-- Encrypt, mirroring encrypt of src/src/crypto/index.ts: the key length is
validated to exactly 32 bytes, a fresh IV is supplied by the caller (the
source draws 12 random bytes), and the result carries ciphertext, IV and
authentication tag. -/
def encrypt (plaintext key iv : List Nat) : Except VaultError EncryptedData :=
  if key.length = 32 then
    Except.ok { ciphertext := encBytes key iv 0 plaintext, iv := iv,
                authTag := tagOf key iv (encBytes key iv 0 plaintext), salt := none }
  else Except.error VaultError.invalidKeyLength

/-- Decrypt, mirroring decrypt of src/src/crypto/index.ts: the key length is
validated, then the authentication tag is verified and a mismatch (wrong key
or tampered data) fails with authenticationFailure before any plaintext is
produced. -/
def decrypt (e : EncryptedData) (key : List Nat) : Except VaultError (List Nat) :=
  if key.length = 32 then
    if e.authTag = tagOf key e.iv e.ciphertext then
      Except.ok (decBytes key e.iv 0 e.ciphertext)
    else Except.error VaultError.authenticationFailure
  else Except.error VaultError.invalidKeyLength

/-- Mirrors clearKey of src/src/crypto/index.ts: overwrite every byte of the
key buffer with zero. -/
def clearKey (key : List Nat) : List Nat := key.map (fun _ => 0)

/-- Stored vault entry, mirroring StoredEntry of the storage layer. -/
structure StoredEntry where
  encrypted : EncryptedData
  createdAt : String
  updatedAt : String
  version : Nat
deriving DecidableEq

/-- Plaintext view returned by vault operations, mirroring VaultData. -/
structure VaultData where
  id : String
  data : List Nat
  createdAt : String
  updatedAt : String
  version : Nat
deriving DecidableEq

/-- The in-memory storage backend (class MemoryStorage of
src/src/vault/encrypted-vault.ts) modelled as an association list with
unique keys; get returns the entry of the first matching key. -/
def storageGet : List (String × StoredEntry) → String → Option StoredEntry
  | [], _ => none
  | p :: rest, k => if p.1 = k then some p.2 else storageGet rest k

/-- Upsert, mirroring MemoryStorage.put (Map.set semantics: replace in place
when the key is present, append otherwise). -/
def storagePut : List (String × StoredEntry) → String → StoredEntry → List (String × StoredEntry)
  | [], k, e => [(k, e)]
  | p :: rest, k, e => if p.1 = k then (k, e) :: rest else p :: storagePut rest k e

/-- Delete, mirroring MemoryStorage.delete (Map.delete semantics: remove the
entry and report whether it existed). -/
def storageDelete : List (String × StoredEntry) → String → List (String × StoredEntry) × Bool
  | [], _ => ([], false)
  | p :: rest, k =>
    if p.1 = k then (rest, true)
    else
      let r := storageDelete rest k
      (p :: r.1, r.2)

/-- The encrypted vault, mirroring class EncryptedVault of
src/src/vault/encrypted-vault.ts: an initialized flag, an optional in-memory
encryption key and the storage backend contents. -/
structure EncryptedVault where
  initialized : Bool
  encryptionKey : Option (List Nat)
  storage : List (String × StoredEntry)
deriving DecidableEq

/-- A freshly constructed vault: uninitialized, no key, empty storage. -/
def EncryptedVault.new : EncryptedVault :=
  { initialized := false, encryptionKey := none, storage := [] }

/-- Mirrors EncryptedVault.ensureInitialized: fail with notInitialized unless
the vault is flagged initialized and holds a key. -/
def ensureInitialized (v : EncryptedVault) : Except VaultError (List Nat) :=
  match v.encryptionKey with
  | some k => if v.initialized then Except.ok k else Except.error VaultError.notInitialized
  | none => Except.error VaultError.notInitialized

/-- Mirrors EncryptedVault.initialize: the source generates 32 fresh random
bytes; the randomness is passed explicitly.  No validation is performed. -/
def EncryptedVault.initRandom (v : EncryptedVault) (freshKey : List Nat) : EncryptedVault :=
  { v with encryptionKey := some freshKey, initialized := true }

/-- Mirrors EncryptedVault.initializeWithKey: the externally supplied key must
be exactly 32 bytes, otherwise the call fails and the vault is untouched. -/
def EncryptedVault.initWithKey (v : EncryptedVault) (key : List Nat) :
    Except VaultError EncryptedVault :=
  if key.length = 32 then
    Except.ok { v with encryptionKey := some key, initialized := true }
  else Except.error VaultError.invalidKeyLength

/-- Mirrors EncryptedVault.put: check initialization, read the existing entry,
encrypt the serialized value, store an entry whose version is the existing
version (else 0) plus 1 and whose createdAt is preserved from the existing
entry (else the current time), and return the plaintext view. -/
def EncryptedVault.put (v : EncryptedVault) (key : String) (value : List Nat)
    (now : String) (iv : List Nat) : Except VaultError (EncryptedVault × VaultData) := do
  let k ← ensureInitialized v
  let existing := storageGet v.storage key
  let encrypted ← encrypt value k iv
  let entry : StoredEntry := {
    encrypted := encrypted
    createdAt := (existing.map StoredEntry.createdAt).getD now
    updatedAt := now
    version := (existing.map StoredEntry.version).getD 0 + 1 }
  Except.ok ({ v with storage := storagePut v.storage key entry },
    { id := key, data := value, createdAt := entry.createdAt, updatedAt := now,
      version := entry.version })

/-- Mirrors EncryptedVault.get: check initialization, read the entry, decrypt
(propagating authentication failures), return the plaintext view or none. -/
def EncryptedVault.get (v : EncryptedVault) (key : String) :
    Except VaultError (Option VaultData) := do
  let k ← ensureInitialized v
  match storageGet v.storage key with
  | none => Except.ok none
  | some entry => do
    let plaintext ← decrypt entry.encrypted k
    Except.ok (some {
      id := key, data := plaintext, createdAt := entry.createdAt,
      updatedAt := entry.updatedAt, version := entry.version })

/-- Mirrors EncryptedVault.delete. -/
def EncryptedVault.delete (v : EncryptedVault) (key : String) :
    Except VaultError (EncryptedVault × Bool) := do
  let _ ← ensureInitialized v
  let r := storageDelete v.storage key
  Except.ok ({ v with storage := r.1 }, r.2)

/-- Mirrors EncryptedVault.keys. -/
def EncryptedVault.keys (v : EncryptedVault) : Except VaultError (List String) := do
  let _ ← ensureInitialized v
  Except.ok (v.storage.map Prod.fst)

/-- Mirrors EncryptedVault.has. -/
def EncryptedVault.has (v : EncryptedVault) (key : String) : Except VaultError Bool := do
  let _ ← ensureInitialized v
  Except.ok (storageGet v.storage key).isSome

/-- Mirrors EncryptedVault.export (renamed: export is a Lean keyword). -/
def EncryptedVault.exportData (v : EncryptedVault) :
    Except VaultError (List (String × StoredEntry)) := do
  let _ ← ensureInitialized v
  Except.ok v.storage

/-- Mirrors EncryptedVault.import (renamed: import is a Lean keyword): bulk
upsert of already-encrypted entries, bypassing encryption entirely. -/
def EncryptedVault.importData (v : EncryptedVault) (data : List (String × StoredEntry)) :
    Except VaultError EncryptedVault := do
  let _ ← ensureInitialized v
  Except.ok { v with storage := data.foldl (fun s p => storagePut s p.1 p.2) v.storage }

/-- Mirrors EncryptedVault.destroy: the key buffer is zeroed (clearKey) and
dropped, the storage backend is closed (the in-memory backend clears its map)
and the initialized flag is lowered.  The source keeps no dedicated destroyed
flag. -/
def EncryptedVault.destroy (_v : EncryptedVault) : EncryptedVault :=
  { initialized := false, encryptionKey := none, storage := [] }

/-! Concrete example data used by witnesses and counterexamples. -/

def exKeyA : List Nat := List.replicate 32 1

def exKeyB : List Nat := List.replicate 32 2

def exKey16 : List Nat := List.replicate 16 9

def exIv : List Nat := List.replicate 12 3

def exP : List Nat := [104, 105]

def kKey : String := "k1"

def tNow : String := "t2"

def tCreated : String := "t1"

def exEnc : EncryptedData := { ciphertext := [], iv := [], authTag := [], salt := none }

def exStored : StoredEntry :=
  { encrypted := exEnc, createdAt := tCreated, updatedAt := tCreated, version := 5 }

def exVaultInit : EncryptedVault :=
  { initialized := true, encryptionKey := some exKeyA, storage := [(kKey, exStored)] }

def exE : EncryptedData :=
  { ciphertext := encBytes exKeyA exIv 0 exP, iv := exIv,
    authTag := tagOf exKeyA exIv (encBytes exKeyA exIv 0 exP), salt := none }

/-! Helper lemmas about the crypto model and the storage backend. -/

theorem decBytes_encBytes (key iv p : List Nat) (i : Nat) (hp : ∀ b ∈ p, b < 256) :
    decBytes key iv i (encBytes key iv i p) = p := by
  induction p generalizing i with
  | nil => rfl
  | cons b bs ih =>
    have hb : b < 256 := hp b (List.mem_cons_self b bs)
    have hks : keystream key iv i < 256 := Nat.mod_lt _ (by omega)
    simp only [encBytes, decBytes, List.cons.injEq]
    exact ⟨by omega, ih (i + 1) (fun x hx => hp x (List.mem_cons_of_mem b hx))⟩

theorem clearKey_zeroes (k : List Nat) : clearKey k = List.replicate k.length 0 := by
  induction k with
  | nil => rfl
  | cons a t ih =>
    simp [clearKey] at ih
    simp [clearKey, List.replicate, ih]

theorem storageGet_put_self (s : List (String × StoredEntry)) (k : String) (e : StoredEntry) :
    storageGet (storagePut s k e) k = some e := by
  induction s with
  | nil => simp [storagePut, storageGet]
  | cons p rest ih =>
    by_cases h : p.1 = k <;> simp [storagePut, storageGet, h, ih]

theorem storageGet_put_other (s : List (String × StoredEntry)) (k k2 : String)
    (e : StoredEntry) (h : k2 ≠ k) :
    storageGet (storagePut s k e) k2 = storageGet s k2 := by
  induction s with
  | nil => simp [storagePut, storageGet, Ne.symm h]
  | cons p rest ih =>
    by_cases hp : p.1 = k
    · simp [storagePut, storageGet, hp, Ne.symm h]
    · by_cases hq : p.1 = k2 <;> simp [storagePut, storageGet, hp, hq, h, ih]

theorem storageDelete_absent (s : List (String × StoredEntry)) (k : String)
    (h : storageGet s k = none) : storageDelete s k = (s, false) := by
  induction s with
  | nil => rfl
  | cons p rest ih =>
    simp only [storageGet] at h
    by_cases hp : p.1 = k
    · rw [if_pos hp] at h
      exact absurd h (by simp)
    · rw [if_neg hp] at h
      simp [storageDelete, hp, ih h]

theorem exceptBindError {α β : Type} (e : VaultError) (f : α → Except VaultError β) :
    (do
      let x ← (Except.error e : Except VaultError α)
      f x) = Except.error e := rfl

theorem exceptBindOk {α β : Type} (a : α) (f : α → Except VaultError β) :
    (do
      let x ← (Except.ok a : Except VaultError α)
      f x) = f a := rfl

theorem notInit_ensure (v : EncryptedVault) (h : v.initialized = false) :
    ensureInitialized v = Except.error VaultError.notInitialized := by
  unfold ensureInitialized
  cases v.encryptionKey <;> simp [h]

theorem notInit_ops (v : EncryptedVault) (key : String) (value : List Nat)
    (now : String) (iv : List Nat) (data : List (String × StoredEntry))
    (h : v.initialized = false) :
    v.put key value now iv = Except.error VaultError.notInitialized ∧
    v.get key = Except.error VaultError.notInitialized ∧
    v.delete key = Except.error VaultError.notInitialized ∧
    v.keys = Except.error VaultError.notInitialized ∧
    v.has key = Except.error VaultError.notInitialized ∧
    v.exportData = Except.error VaultError.notInitialized ∧
    v.importData data = Except.error VaultError.notInitialized := by
  have he := notInit_ensure v h
  refine ⟨?_, ?_, ?_, ?_, ?_, ?_, ?_⟩ <;>
    simp [EncryptedVault.put, EncryptedVault.get, EncryptedVault.delete, EncryptedVault.keys,
      EncryptedVault.has, EncryptedVault.exportData, EncryptedVault.importData, he,
      exceptBindError]

/-! Claims about the encryption layer and the encrypted vault. -/

/-- Claim C5: decrypting an encryption under the same 32-byte key returns the
original plaintext exactly; decrypting under a different 32-byte key, or after
tampering with the ciphertext or the authentication tag, fails with
authenticationFailure and returns no plaintext at all. -/
theorem encrypt_decrypt_auth (p key key2 iv c2 t2 : List Nat)
    (hk : key.length = 32) (hk2 : key2.length = 32) (hp : ∀ b ∈ p, b < 256) :
    (∃ e, encrypt p key iv = Except.ok e ∧ decrypt e key = Except.ok p) ∧
    (∀ e, encrypt p key iv = Except.ok e → key ≠ key2 →
      decrypt e key2 = Except.error VaultError.authenticationFailure) ∧
    (∀ e, encrypt p key iv = Except.ok e → c2 ≠ e.ciphertext →
      decrypt { e with ciphertext := c2 } key =
        Except.error VaultError.authenticationFailure) ∧
    (∀ e, encrypt p key iv = Except.ok e → t2 ≠ e.authTag →
      decrypt { e with authTag := t2 } key =
        Except.error VaultError.authenticationFailure) := by
  have hok : encrypt p key iv = Except.ok
      { ciphertext := encBytes key iv 0 p, iv := iv,
        authTag := tagOf key iv (encBytes key iv 0 p), salt := none } := by
    simp [encrypt, hk]
  refine ⟨⟨_, hok, ?_⟩, ?_, ?_, ?_⟩
  · simp [decrypt, hk, decBytes_encBytes key iv p 0 hp]
  · intro e he hne
    rw [hok] at he
    injection he with he
    subst he
    have htag : ¬ tagOf key iv (encBytes key iv 0 p) =
        tagOf key2 iv (encBytes key iv 0 p) := by
      intro hcontra
      simp only [tagOf, List.append_assoc] at hcontra
      exact hne (List.append_inj hcontra (hk.trans hk2.symm)).1
    simp only [decrypt]
    rw [if_pos hk2]
    exact if_neg htag
  · intro e he hne
    rw [hok] at he
    injection he with he
    subst he
    have htag : ¬ tagOf key iv (encBytes key iv 0 p) = tagOf key iv c2 := by
      intro hcontra
      simp only [tagOf, List.append_assoc] at hcontra
      have h2 := (List.append_inj hcontra rfl).2
      have h3 := (List.append_inj h2 rfl).2
      exact hne h3.symm
    simp only [decrypt]
    rw [if_pos hk]
    exact if_neg htag
  · intro e he hne
    rw [hok] at he
    injection he with he
    subst he
    simp only [decrypt]
    rw [if_pos hk]
    exact if_neg hne

theorem encrypt_decrypt_auth_witness :
    (∃ e, encrypt exP exKeyA exIv = Except.ok e ∧ decrypt e exKeyA = Except.ok exP) ∧
    decrypt exE exKeyB = Except.error VaultError.authenticationFailure := by
  have h := encrypt_decrypt_auth exP exKeyA exKeyB exIv [] []
    (by decide) (by decide) (by decide)
  exact ⟨h.1, h.2.1 exE rfl (by decide)⟩

/-- Claim C9: initializing a vault with an externally supplied key fails with
invalidKeyLength whenever the key is not exactly 32 bytes (the call returns
the error before touching the vault, which therefore stays uninitialized),
and succeeds with a 32-byte key, transitioning the vault to initialized. -/
theorem initWithKey_length_check (v : EncryptedVault) (key : List Nat) :
    (key.length ≠ 32 → v.initWithKey key = Except.error VaultError.invalidKeyLength) ∧
    (key.length = 32 →
      v.initWithKey key =
        Except.ok { v with encryptionKey := some key, initialized := true }) := by
  constructor <;> intro h <;> simp [EncryptedVault.initWithKey, h]

theorem initWithKey_length_check_witness :
    EncryptedVault.new.initWithKey exKey16 = Except.error VaultError.invalidKeyLength ∧
    EncryptedVault.new.initWithKey exKeyA =
      Except.ok { EncryptedVault.new with encryptionKey := some exKeyA, initialized := true } :=
  ⟨(initWithKey_length_check EncryptedVault.new exKey16).1 (by decide),
   (initWithKey_length_check EncryptedVault.new exKeyA).2 (by decide)⟩

/-- Claim C8: every data operation of the vault (put, get, delete, keys, has,
export, import) invoked before initialization fails with notInitialized; the
initialization check precedes any storage access, and on error no successor
state is produced, so storage is untouched. -/
theorem vault_ops_fail_before_init (v : EncryptedVault) (key : String) (value : List Nat)
    (now : String) (iv : List Nat) (data : List (String × StoredEntry))
    (h : v.initialized = false) :
    v.put key value now iv = Except.error VaultError.notInitialized ∧
    v.get key = Except.error VaultError.notInitialized ∧
    v.delete key = Except.error VaultError.notInitialized ∧
    v.keys = Except.error VaultError.notInitialized ∧
    v.has key = Except.error VaultError.notInitialized ∧
    v.exportData = Except.error VaultError.notInitialized ∧
    v.importData data = Except.error VaultError.notInitialized :=
  notInit_ops v key value now iv data h

theorem vault_ops_fail_before_init_witness :
    EncryptedVault.new.put kKey exP tNow exIv = Except.error VaultError.notInitialized ∧
    EncryptedVault.new.get kKey = Except.error VaultError.notInitialized ∧
    EncryptedVault.new.delete kKey = Except.error VaultError.notInitialized ∧
    EncryptedVault.new.keys = Except.error VaultError.notInitialized ∧
    EncryptedVault.new.has kKey = Except.error VaultError.notInitialized ∧
    EncryptedVault.new.exportData = Except.error VaultError.notInitialized ∧
    EncryptedVault.new.importData [] = Except.error VaultError.notInitialized :=
  vault_ops_fail_before_init EncryptedVault.new kKey exP tNow exIv [] rfl

/-- Claim C7 (amended): destroy zeroes the in-memory encryption key (clearKey
overwrites every byte with zero and the reference is dropped), releases the
storage backend, and afterwards every data operation fails with
notInitialized.  The destroyed state is however not terminal: the source
keeps no destroyed flag, so an initialization path taken after destroy
transitions the vault back to initialized (see the counterexample). -/
theorem destroy_behavior (v : EncryptedVault) (key : String) (value : List Nat)
    (now : String) (iv : List Nat) (data : List (String × StoredEntry)) (k : List Nat) :
    v.destroy.initialized = false ∧
    v.destroy.encryptionKey = none ∧
    v.destroy.storage = [] ∧
    clearKey k = List.replicate k.length 0 ∧
    (v.destroy.put key value now iv = Except.error VaultError.notInitialized ∧
     v.destroy.get key = Except.error VaultError.notInitialized ∧
     v.destroy.delete key = Except.error VaultError.notInitialized ∧
     v.destroy.keys = Except.error VaultError.notInitialized ∧
     v.destroy.has key = Except.error VaultError.notInitialized ∧
     v.destroy.exportData = Except.error VaultError.notInitialized ∧
     v.destroy.importData data = Except.error VaultError.notInitialized) :=
  ⟨rfl, rfl, rfl, clearKey_zeroes k, notInit_ops v.destroy key value now iv data rfl⟩

/-- Counterexample to Claim C7 as stated: the destroyed state can be left.
The vault exVaultInit, after destroy, accepts a renewed initialization with a
fresh random key and reports initialized again, so destroyed is not a
terminal state of the implementation. -/
theorem destroyed_state_left :
    exVaultInit.destroy.initialized = false ∧
    (exVaultInit.destroy.initRandom exKeyB).initialized = true :=
  ⟨rfl, rfl⟩

/-- Claim C4: on an initialized vault, put stores an entry whose version is
exactly one greater than the existing stored version for the key (1 when the
key is absent, the existing version defaulting to 0), and preserves the
createdAt of the existing entry (using the current time only for a fresh
key). -/
theorem put_version_createdAt (v : EncryptedVault) (key : String) (value : List Nat)
    (now : String) (iv : List Nat) (k : List Nat)
    (hkey : v.encryptionKey = some k) (hinit : v.initialized = true) (hk : k.length = 32) :
    ((v.put key value now iv).toOption.bind
        (fun r => storageGet r.1.storage key)).map
      (fun e => (e.version, e.createdAt)) =
    some ((match storageGet v.storage key with
            | some old => old.version
            | none => 0) + 1,
          match storageGet v.storage key with
          | some old => old.createdAt
          | none => now) := by
  have he : ensureInitialized v = Except.ok k := by
    unfold ensureInitialized
    rw [hkey]
    simp [hinit]
  have henc : encrypt value k iv = Except.ok
      { ciphertext := encBytes k iv 0 value, iv := iv,
        authTag := tagOf k iv (encBytes k iv 0 value), salt := none } := by
    simp [encrypt, hk]
  cases hg : storageGet v.storage key <;>
    simp [EncryptedVault.put, he, henc, hg, exceptBindOk, Except.toOption,
      storageGet_put_self]

theorem put_version_createdAt_witness :
    ((exVaultInit.put kKey exP tNow exIv).toOption.bind
        (fun r => storageGet r.1.storage kKey)).map
      (fun e => (e.version, e.createdAt)) = some (6, tCreated) := by
  have h := put_version_createdAt exVaultInit kKey exP tNow exIv exKeyA rfl rfl (by decide)
  rw [h]
  decide

/-! The replicated map.  The source delegates its CRDT merge to the external
Yjs engine, which is not part of this repository; following spec sections
4.3 and 9, the replicated map is modelled as an explicit operation log with
per-replica logical counters and last-writer-wins conflict resolution. -/

/-- Replicated entry as published to the replicated map, mirroring
SyncedEntry of src/src/sync/crdt-sync.ts (field-identical to StoredEntry). -/
structure SyncedEntry where
  encrypted : EncryptedData
  createdAt : String
  updatedAt : String
  version : Nat
deriving DecidableEq

/-- Modelled from the spec: one operation of the replicated map's log (the
CRDT engine is external to the source) — a set (some value) or a tombstone
(none) for a key, tagged with the originating replica identifier and that
replica's logical timestamp. -/
structure Op where
  replica : String
  clock : Nat
  key : String
  value : Option SyncedEntry
deriving DecidableEq

/-- Modelled from the spec: the strict (logical timestamp, replica
identifier) order used for deterministic last-writer-wins tie-breaking — the
higher timestamp wins, ties are broken by lexicographic replica id. -/
def Op.tsLt (a b : Op) : Prop :=
  a.clock < b.clock ∨ (a.clock = b.clock ∧ a.replica < b.replica)

instance (a b : Op) : Decidable (a.tsLt b) := by
  unfold Op.tsLt
  infer_instance

theorem tsLt_irrefl (a : Op) : ¬ a.tsLt a := by
  simp [Op.tsLt]

theorem tsLt_trans {a b c : Op} (h1 : a.tsLt b) (h2 : b.tsLt c) : a.tsLt c := by
  rcases h1 with h1 | ⟨h1c, h1r⟩ <;> rcases h2 with h2 | ⟨h2c, h2r⟩
  · exact Or.inl (by omega)
  · exact Or.inl (by omega)
  · exact Or.inl (by omega)
  · exact Or.inr ⟨by omega, lt_trans h1r h2r⟩

theorem tsLt_trichotomy (a b : Op) :
    a.tsLt b ∨ (a.clock = b.clock ∧ a.replica = b.replica) ∨ b.tsLt a := by
  rcases Nat.lt_trichotomy a.clock b.clock with h | h | h
  · exact Or.inl (Or.inl h)
  · rcases lt_trichotomy a.replica b.replica with hr | hr | hr
    · exact Or.inl (Or.inr ⟨h, hr⟩)
    · exact Or.inr (Or.inl ⟨h, hr⟩)
    · exact Or.inr (Or.inr (Or.inr ⟨h.symm, hr⟩))
  · exact Or.inr (Or.inr (Or.inl h))

/-- Modelled from the spec: the operations of the log affecting a key. -/
def opsFor (k : String) (log : List Op) : List Op :=
  log.filter (fun o => decide (o.key = k))

/-- Modelled from the spec: the newest operation of a list under the
(timestamp, replica) order. -/
def bestOp : List Op → Option Op
  | [] => none
  | o :: rest =>
    match bestOp rest with
    | none => some o
    | some m => some (if m.tsLt o then o else m)

/-- Modelled from the spec: the visible value of a key in the merged view —
the payload of the newest operation for the key (absent when that operation
is a tombstone, or when no operation mentions the key). -/
def viewGet (k : String) (log : List Op) : Option SyncedEntry :=
  (bestOp (opsFor k log)).bind Op.value

/-- Modelled from the spec: merging a delta incorporates the foreign
operations into the local log (CRDTSync.applyUpdate delegates the merge to
the engine); the visible mapping is recomputed by viewGet. -/
def applyUpdate (log delta : List Op) : List Op := log ++ delta

/-- Modelled from the spec: well-formedness of a log — no two distinct
operations carry the same (replica, clock) tag, since each replica stamps
every operation with a fresh logical timestamp. -/
def WfLog (log : List Op) : Prop :=
  ∀ a ∈ log, ∀ b ∈ log, a.clock = b.clock → a.replica = b.replica → a = b

instance (l : List Op) : Decidable (WfLog l) := by
  unfold WfLog
  infer_instance

theorem WfLog_of_subset {l1 l2 : List Op} (hsub : ∀ o ∈ l1, o ∈ l2) (hwf : WfLog l2) :
    WfLog l1 :=
  fun a ha b hb hc hr => hwf a (hsub a ha) b (hsub b hb) hc hr

theorem bestOp_eq_none {l : List Op} : bestOp l = none ↔ l = [] := by
  cases l with
  | nil => simp [bestOp]
  | cons o rest =>
    simp only [bestOp]
    cases bestOp rest <;> simp

theorem bestOp_mem {l : List Op} {m : Op} (h : bestOp l = some m) : m ∈ l := by
  induction l generalizing m with
  | nil => simp [bestOp] at h
  | cons o rest ih =>
    simp only [bestOp] at h
    cases hr : bestOp rest with
    | none =>
      rw [hr] at h
      injection h with h
      rw [← h]
      exact List.mem_cons_self o rest
    | some m2 =>
      rw [hr] at h
      injection h with h
      by_cases hc : m2.tsLt o
      · rw [if_pos hc] at h
        rw [← h]
        exact List.mem_cons_self o rest
      · rw [if_neg hc] at h
        rw [← h]
        exact List.mem_cons_of_mem o (ih hr)

theorem bestOp_max {l : List Op} {m : Op} (h : bestOp l = some m) :
    ∀ x ∈ l, ¬ m.tsLt x := by
  induction l generalizing m with
  | nil => simp [bestOp] at h
  | cons o rest ih =>
    simp only [bestOp] at h
    intro x hx
    cases hr : bestOp rest with
    | none =>
      rw [hr] at h
      injection h with h
      have hnil : rest = [] := bestOp_eq_none.mp hr
      subst hnil
      rw [← h]
      rcases List.mem_cons.mp hx with hx2 | hx2
      · rw [hx2]
        exact tsLt_irrefl _
      · exact absurd hx2 (List.not_mem_nil x)
    | some m2 =>
      rw [hr] at h
      injection h with h
      by_cases hc : m2.tsLt o
      · rw [if_pos hc] at h
        rw [← h]
        rcases List.mem_cons.mp hx with hx2 | hx2
        · rw [hx2]
          exact tsLt_irrefl _
        · intro hox
          exact ih hr x hx2 (tsLt_trans hc hox)
      · rw [if_neg hc] at h
        rw [← h]
        rcases List.mem_cons.mp hx with hx2 | hx2
        · rw [hx2]
          exact hc
        · exact ih hr x hx2

theorem max_unique {l : List Op} (hwf : WfLog l) {m m2 : Op}
    (hm : m ∈ l) (hm2 : m2 ∈ l)
    (hmax : ∀ x ∈ l, ¬ m.tsLt x) (hmax2 : ∀ x ∈ l, ¬ m2.tsLt x) : m = m2 := by
  rcases tsLt_trichotomy m m2 with h | ⟨hc, hr⟩ | h
  · exact absurd h (hmax m2 hm2)
  · exact hwf m hm m2 hm2 hc hr
  · exact absurd h (hmax2 m hm)

theorem bestOp_congr {l1 l2 : List Op} (hwf : WfLog l2)
    (hmem : ∀ o, o ∈ l1 ↔ o ∈ l2) : bestOp l1 = bestOp l2 := by
  cases h1 : bestOp l1 with
  | none =>
    have hn : l1 = [] := bestOp_eq_none.mp h1
    subst hn
    cases h2 : bestOp l2 with
    | none => rfl
    | some m2 =>
      have hm2 := (hmem m2).mpr (bestOp_mem h2)
      exact absurd hm2 (List.not_mem_nil m2)
  | some m =>
    cases h2 : bestOp l2 with
    | none =>
      have hn : l2 = [] := bestOp_eq_none.mp h2
      subst hn
      exact absurd ((hmem m).mp (bestOp_mem h1)) (List.not_mem_nil m)
    | some m2 =>
      congr 1
      exact max_unique hwf ((hmem m).mp (bestOp_mem h1)) (bestOp_mem h2)
        (fun x hx => bestOp_max h1 x ((hmem x).mpr hx)) (bestOp_max h2)

theorem viewGet_congr {l1 l2 : List Op} (k : String) (hwf : WfLog l2)
    (hmem : ∀ o, o ∈ l1 ↔ o ∈ l2) : viewGet k l1 = viewGet k l2 := by
  unfold viewGet
  have hw2 : WfLog (opsFor k l2) :=
    WfLog_of_subset (fun o ho => (List.mem_filter.mp ho).1) hwf
  have hm : ∀ o, o ∈ opsFor k l1 ↔ o ∈ opsFor k l2 := by
    intro o
    simp only [opsFor, List.mem_filter]
    exact ⟨fun hp => ⟨(hmem o).mp hp.1, hp.2⟩, fun hp => ⟨(hmem o).mpr hp.1, hp.2⟩⟩
  rw [bestOp_congr hw2 hm]

/-- Claim C1: on well-formed logs (each replica stamps its operations with
distinct logical timestamps — the invariant every replica maintains),
applyUpdate is idempotent and commutative with respect to the visible
key-to-entry mapping: applying the same delta twice gives the view of
applying it once, and applying deltas in either order gives the same view. -/
theorem applyUpdate_idem_comm (s a b : List Op) (k : String)
    (hwf : WfLog (applyUpdate (applyUpdate s a) b)) :
    viewGet k (applyUpdate (applyUpdate s a) a) = viewGet k (applyUpdate s a) ∧
    viewGet k (applyUpdate (applyUpdate s a) b) =
      viewGet k (applyUpdate (applyUpdate s b) a) := by
  constructor
  · refine viewGet_congr k (WfLog_of_subset ?_ hwf) ?_
    · intro o ho
      simp only [applyUpdate, List.mem_append] at ho ⊢
      tauto
    · intro o
      simp only [applyUpdate, List.mem_append]
      tauto
  · refine viewGet_congr k (WfLog_of_subset ?_ hwf) ?_
    · intro o ho
      simp only [applyUpdate, List.mem_append] at ho ⊢
      tauto
    · intro o
      simp only [applyUpdate, List.mem_append]
      tauto

/-! Example replicas and operations for witnesses and counterexamples. -/

def rA : String := "a"

def rB : String := "b"

def exSynced : SyncedEntry :=
  { encrypted := exEnc, createdAt := tCreated, updatedAt := tCreated, version := 1 }

def opA1 : Op := { replica := rA, clock := 1, key := kKey, value := some exSynced }

def opB1 : Op := { replica := rB, clock := 1, key := kKey, value := none }

theorem applyUpdate_idem_comm_witness :
    viewGet kKey (applyUpdate (applyUpdate [] [opA1]) [opA1]) =
      viewGet kKey (applyUpdate [] [opA1]) ∧
    viewGet kKey (applyUpdate (applyUpdate [] [opA1]) [opB1]) =
      viewGet kKey (applyUpdate (applyUpdate [] [opB1]) [opA1]) :=
  applyUpdate_idem_comm [] [opA1] [opB1] kKey (by decide)

/-- Modelled from the spec: one replica's handle on the replicated map — its
identifier, its logical clock, and the merged operation log. -/
structure SyncState where
  replica : String
  clock : Nat
  log : List Op
deriving DecidableEq

/-- Modelled from the spec: CRDTSync.set records a local set operation tagged
with this replica's next logical timestamp. -/
def SyncState.set (st : SyncState) (k : String) (v : SyncedEntry) : SyncState :=
  { st with
    clock := st.clock + 1
    log := st.log ++
      [{ replica := st.replica, clock := st.clock + 1, key := k, value := some v }] }

/-- Mirrors CRDTSync.remove (src/src/sync/crdt-sync.ts lines 106 to 114):
when the key is visible in the merged view, a tombstone operation with the
next logical timestamp is recorded (modelled from the spec, the engine being
external) and true is returned; otherwise nothing is recorded and false is
returned. -/
def SyncState.remove (st : SyncState) (k : String) : SyncState × Bool :=
  if (viewGet k st.log).isSome then
    ({ st with
       clock := st.clock + 1
       log := st.log ++
         [{ replica := st.replica, clock := st.clock + 1, key := k, value := none }] },
     true)
  else (st, false)

theorem viewGet_of_strictMax {l : List Op} {k : String} {m : Op} (_hwf : WfLog l)
    (hm : m ∈ l) (hk : m.key = k) (hmax : ∀ o ∈ l, o.key = k → o ≠ m → o.tsLt m) :
    viewGet k l = m.value := by
  have hmf : m ∈ opsFor k l := List.mem_filter.mpr ⟨hm, by simp [hk]⟩
  cases hb : bestOp (opsFor k l) with
  | none =>
    rw [bestOp_eq_none] at hb
    rw [hb] at hmf
    exact absurd hmf (List.not_mem_nil m)
  | some m2 =>
    have hm2f := List.mem_filter.mp (bestOp_mem hb)
    have hm2k : m2.key = k := by simpa using hm2f.2
    have heq : m2 = m := by
      by_contra hne
      exact (bestOp_max hb m hmf) (hmax m2 hm2f.1 hm2k hne)
    rw [viewGet, hb, heq]
    rfl

/-- Claim C2 (amended): for every key visible in the merged view, remove
records a tombstone operation with the replica's next timestamp — not a
silent local delete — and tombstone semantics hold on any replica whose
well-formed log contains the merged operations: when the tombstone is the
newest operation for the key it defeats every older concurrent set (the key
disappears from the view), while a causally later set being newest wins over
the tombstone (its value is visible).  For a key absent from the view,
remove records nothing and returns false (see the counterexample). -/
theorem remove_tombstone (st : SyncState) (k : String)
    (hvis : (viewGet k st.log).isSome) :
    ((st.remove k).2 = true ∧
     (st.remove k).1.log = st.log ++
       [{ replica := st.replica, clock := st.clock + 1, key := k, value := none }]) ∧
    (∀ l t, WfLog l → t ∈ l → t.key = k → t.value = none →
      (∀ o ∈ l, o.key = k → o ≠ t → o.tsLt t) → viewGet k l = none) ∧
    (∀ l s2, WfLog l → s2 ∈ l → s2.key = k →
      (∀ o ∈ l, o.key = k → o ≠ s2 → o.tsLt s2) → viewGet k l = s2.value) := by
  refine ⟨⟨?_, ?_⟩, ?_, ?_⟩
  · simp [SyncState.remove, hvis]
  · simp [SyncState.remove, hvis]
  · intro l t hwf ht hk hv hmax
    rw [viewGet_of_strictMax hwf ht hk hmax, hv]
  · intro l s2 hwf hs hk hmax
    exact viewGet_of_strictMax hwf hs hk hmax

def exStA : SyncState := { replica := rA, clock := 1, log := [opA1] }

def exTomb : Op := { replica := rB, clock := 2, key := kKey, value := none }

def exSet3 : Op := { replica := rA, clock := 3, key := kKey, value := some exSynced }

theorem remove_tombstone_witness :
    (exStA.remove kKey).2 = true ∧
    viewGet kKey [opA1, exTomb] = none ∧
    viewGet kKey [opA1, exTomb, exSet3] = some exSynced :=
  have h := remove_tombstone exStA kKey (by decide)
  ⟨h.1.1,
   h.2.1 [opA1, exTomb] exTomb (by decide) (by decide) rfl rfl (by decide),
   h.2.2 [opA1, exTomb, exSet3] exSet3 (by decide) (by decide) rfl (by decide)⟩

def exEmptySync : SyncState := { replica := rA, clock := 0, log := [] }

/-- Counterexample to Claim C2 as stated: calling remove on a key absent from
the merged view records no operation at all — CRDTSync.remove returns early
when the key does not exist — so it is not true that remove records a
tombstone for every key. -/
theorem remove_absent_records_nothing :
    (exEmptySync.remove kKey).1 = exEmptySync ∧
    (exEmptySync.remove kKey).2 = false := by
  constructor <;> rfl

/-! The synced vault: an encrypted vault composed with the replicated map,
mirroring class SyncedVault (src/unnamed/part_004). -/

structure SyncedVault where
  vault : EncryptedVault
  sync : SyncState
deriving DecidableEq

/-- Mirrors SyncedVault.storedToSynced: a field-for-field copy. -/
def storedToSynced (e : StoredEntry) : SyncedEntry :=
  { encrypted := e.encrypted, createdAt := e.createdAt, updatedAt := e.updatedAt,
    version := e.version }

/-- Mirrors SyncedVault.syncedToStored: a field-for-field copy. -/
def syncedToStored (e : SyncedEntry) : StoredEntry :=
  { encrypted := e.encrypted, createdAt := e.createdAt, updatedAt := e.updatedAt,
    version := e.version }

/-- Mirrors SyncedVault.applyRemoteEntry: the already-encrypted remote entry
is converted field for field and imported directly into storage, bypassing
put and hence bypassing encryption and version computation. -/
def SyncedVault.applyRemoteEntry (sv : SyncedVault) (key : String)
    (entry : SyncedEntry) : Except VaultError SyncedVault := do
  let v2 ← sv.vault.importData [(key, syncedToStored entry)]
  Except.ok { sv with vault := v2 }

/-- Change actions delivered by the replicated map's change notifications
(the YMapEvent change actions observed by SyncedVault.setupSync). -/
inductive ChangeAction where
  | add
  | update
  | del
deriving DecidableEq

/-- Mirrors the change handler installed by SyncedVault.setupSync: an added
or updated key is read from the replicated map and applied through
applyRemoteEntry (the import path), while a deleted key is deleted from the
local vault. -/
def SyncedVault.handleRemoteChange (sv : SyncedVault) (action : ChangeAction)
    (key : String) : Except VaultError SyncedVault :=
  match action with
  | ChangeAction.add | ChangeAction.update =>
    match viewGet key sv.sync.log with
    | some entry => sv.applyRemoteEntry key entry
    | none => Except.ok sv
  | ChangeAction.del => do
    let r ← sv.vault.delete key
    Except.ok { sv with vault := r.1 }

/-- Mirrors SyncedVault.delete: delete from the local vault first; only when
the local delete reports that a row existed is the removal mirrored into the
replicated map. -/
def SyncedVault.delete (sv : SyncedVault) (key : String) :
    Except VaultError (SyncedVault × Bool) := do
  let r ← sv.vault.delete key
  if r.2 then
    Except.ok ({ vault := r.1, sync := (sv.sync.remove key).1 }, true)
  else
    Except.ok ({ sv with vault := r.1 }, false)

theorem init_ensure (v : EncryptedVault) (k : List Nat) (hkey : v.encryptionKey = some k)
    (hinit : v.initialized = true) : ensureInitialized v = Except.ok k := by
  unfold ensureInitialized
  rw [hkey]
  simp [hinit]

/-- Claim C3: a remote add or update delivered through the replicated map's
change notifications reaches local storage through the import path, never
through put: the stored entry is the field-for-field copy of the remote
entry, so its ciphertext is the remote ciphertext (no re-encryption) and its
version equals the remote version (no version bump), every other key of
local storage is untouched, and the replicated-map state is unchanged. -/
theorem remote_change_imports_verbatim (sv : SyncedVault) (action : ChangeAction)
    (key : String) (entry : SyncedEntry) (k : List Nat)
    (hkey : sv.vault.encryptionKey = some k) (hinit : sv.vault.initialized = true)
    (haction : action = ChangeAction.add ∨ action = ChangeAction.update)
    (hentry : viewGet key sv.sync.log = some entry) :
    ∃ sv2, sv.handleRemoteChange action key = Except.ok sv2 ∧
      storageGet sv2.vault.storage key = some (syncedToStored entry) ∧
      (syncedToStored entry).encrypted = entry.encrypted ∧
      (syncedToStored entry).version = entry.version ∧
      (∀ k2, k2 ≠ key → storageGet sv2.vault.storage k2 = storageGet sv.vault.storage k2) ∧
      sv2.sync = sv.sync := by
  have he := init_ensure sv.vault k hkey hinit
  have happ : sv.applyRemoteEntry key entry = Except.ok
      { sv with vault := { sv.vault with
          storage := storagePut sv.vault.storage key (syncedToStored entry) } } := by
    simp [SyncedVault.applyRemoteEntry, EncryptedVault.importData, he, exceptBindOk]
  have hmain : sv.handleRemoteChange action key = sv.applyRemoteEntry key entry := by
    rcases haction with h | h <;> subst h <;>
      simp [SyncedVault.handleRemoteChange, hentry]
  refine ⟨_, hmain.trans happ, ?_, rfl, rfl, ?_, rfl⟩
  · exact storageGet_put_self sv.vault.storage key (syncedToStored entry)
  · intro k2 hk2
    exact storageGet_put_other sv.vault.storage key k2 (syncedToStored entry) hk2

def exSV : SyncedVault :=
  { vault := exVaultInit, sync := exStA }

theorem remote_change_imports_verbatim_witness :
    ∃ sv2, exSV.handleRemoteChange ChangeAction.add kKey = Except.ok sv2 ∧
      storageGet sv2.vault.storage kKey = some (syncedToStored exSynced) ∧
      (syncedToStored exSynced).encrypted = exSynced.encrypted ∧
      (syncedToStored exSynced).version = exSynced.version ∧
      (∀ k2, k2 ≠ kKey →
        storageGet sv2.vault.storage k2 = storageGet exSV.vault.storage k2) ∧
      sv2.sync = exSV.sync :=
  remote_change_imports_verbatim exSV ChangeAction.add kKey exSynced exKeyA
    rfl rfl (Or.inl rfl) (by decide)

/-- Claim C10: deleting a key absent from the synced vault's local storage
returns false and records nothing in the replicated map — the removal is
mirrored only when the local delete reported an existing row — so the whole
synced-vault state, replicated map included, is returned unchanged and no
removal can propagate to peers. -/
theorem synced_delete_absent (sv : SyncedVault) (key : String) (k : List Nat)
    (hkey : sv.vault.encryptionKey = some k) (hinit : sv.vault.initialized = true)
    (habs : storageGet sv.vault.storage key = none) :
    sv.delete key = Except.ok (sv, false) := by
  have he := init_ensure sv.vault k hkey hinit
  have hdel : storageDelete sv.vault.storage key = (sv.vault.storage, false) :=
    storageDelete_absent sv.vault.storage key habs
  simp [SyncedVault.delete, EncryptedVault.delete, he, exceptBindOk, hdel]

def kAbsent : String := "k2"

theorem synced_delete_absent_witness :
    exSV.delete kAbsent = Except.ok (exSV, false) :=
  synced_delete_absent exSV kAbsent exKeyA rfl rfl (by decide)

/-! The delta wire format.  The source's deltas are opaque byte sequences
produced and consumed by the external Yjs engine; following spec section 6
they are modelled as a versioned, self-describing byte sequence carrying a
list of operations, and spec sections 3 and 7 require rejection of deltas
that cannot be parsed or whose causal preconditions are violated. -/

/-- Modelled from the spec: the leading format-version byte of a delta. -/
def deltaFormatVersion : Nat := 1

/-- Modelled from the spec: read a byte run of the given length. -/
def readBytes (n : Nat) (l : List Nat) : Option (List Nat × List Nat) :=
  if n ≤ l.length then some (l.take n, l.drop n) else none

/-- Modelled from the spec: read a length-prefixed byte run. -/
def readRun : List Nat → Option (List Nat × List Nat)
  | [] => none
  | n :: rest => readBytes n rest

/-- Modelled from the spec: read a length-prefixed string. -/
def readStr (l : List Nat) : Option (String × List Nat) :=
  (readRun l).map (fun r => (String.mk (r.1.map Char.ofNat), r.2))

/-- Modelled from the spec: read one byte as a natural number. -/
def readNat : List Nat → Option (Nat × List Nat)
  | [] => none
  | n :: rest => some (n, rest)

/-- Modelled from the spec: read an optional byte run (tag 0 absent, tag 1
present). -/
def readOptBytes : List Nat → Option (Option (List Nat) × List Nat)
  | 0 :: rest => some (none, rest)
  | 1 :: rest => (readRun rest).map (fun r => (some r.1, r.2))
  | _ => none

/-- Modelled from the spec: read one replicated entry. -/
def readEntry (l : List Nat) : Option (SyncedEntry × List Nat) := do
  let c ← readRun l
  let i ← readRun c.2
  let t ← readRun i.2
  let s ← readOptBytes t.2
  let ca ← readStr s.2
  let ua ← readStr ca.2
  let ve ← readNat ua.2
  some ({ encrypted := { ciphertext := c.1, iv := i.1, authTag := t.1, salt := s.1 },
          createdAt := ca.1, updatedAt := ua.1, version := ve.1 }, ve.2)

/-- Modelled from the spec: read an operation payload (tag 0 tombstone, tag 1
a set carrying an entry). -/
def readValue : List Nat → Option (Option SyncedEntry × List Nat)
  | 0 :: rest => some (none, rest)
  | 1 :: rest => (readEntry rest).map (fun r => (some r.1, r.2))
  | _ => none

/-- Modelled from the spec: read one operation — replica id, logical clock,
key and payload. -/
def readOp (l : List Nat) : Option (Op × List Nat) := do
  let r ← readStr l
  let c ← readNat r.2
  let k ← readStr c.2
  let v ← readValue k.2
  some ({ replica := r.1, clock := c.1, key := k.1, value := v.1 }, v.2)

/-- Modelled from the spec: read the given number of operations. -/
def readOps : Nat → List Nat → Option (List Op × List Nat)
  | 0, l => some ([], l)
  | n + 1, l => do
    let o ← readOp l
    let rest ← readOps n o.2
    some (o.1 :: rest.1, rest.2)

/-- Modelled from the spec: parse a delta — format-version byte, operation
count, the operations, and no trailing bytes; anything else fails to parse. -/
def decodeDelta (bytes : List Nat) : Option (List Op) :=
  match bytes with
  | v :: n :: rest =>
    if v = deltaFormatVersion then
      match readOps n rest with
      | some (ops, []) => some ops
      | _ => none
    else none
  | _ => none

/-- Modelled from the spec: whether the log holds an operation from the given
replica with the given clock. -/
def hasOp (l : List Op) (r : String) (c : Nat) : Bool :=
  l.any (fun o => decide (o.replica = r) && decide (o.clock = c))

/-- Modelled from the spec: the causal precondition of a delta — every
operation with a clock above 1 must have its predecessor (same replica,
preceding clock) available in the local log or in the delta itself, so the
delta depends only on operations the receiver holds after the merge. -/
def causalOk (log delta : List Op) : Bool :=
  delta.all (fun o => decide (o.clock ≤ 1) || hasOp (log ++ delta) o.replica (o.clock - 1))

/-- CRDTSync.applyUpdate over the wire format: parse the delta, validate its
causal preconditions, and merge the operations; a failing delta is rejected
with malformedDelta. -/
def applyUpdateBytes (log : List Op) (bytes : List Nat) : Except VaultError (List Op) :=
  match decodeDelta bytes with
  | none => Except.error VaultError.malformedDelta
  | some ops =>
    if causalOk log ops then Except.ok (applyUpdate log ops)
    else Except.error VaultError.malformedDelta

/-- Claim C6: a delta that cannot be parsed, or whose causal preconditions
are violated, is rejected with malformedDelta — the operation returns only
the error, leaving the local log unchanged — while a delta passing both
checks is merged wholesale in one step, all of its operations entering the
log together, so a delta is never partially merged. -/
theorem applyUpdate_reject_atomic (log : List Op) (bytes : List Nat) :
    (decodeDelta bytes = none →
      applyUpdateBytes log bytes = Except.error VaultError.malformedDelta) ∧
    (∀ ops, decodeDelta bytes = some ops → causalOk log ops = false →
      applyUpdateBytes log bytes = Except.error VaultError.malformedDelta) ∧
    (∀ ops, decodeDelta bytes = some ops → causalOk log ops = true →
      applyUpdateBytes log bytes = Except.ok (log ++ ops)) := by
  refine ⟨?_, ?_, ?_⟩
  · intro h
    simp [applyUpdateBytes, h]
  · intro ops h hc
    simp [applyUpdateBytes, h, hc]
  · intro ops h hc
    simp [applyUpdateBytes, applyUpdate, h, hc]

def kW : String := "k"

def exWireOp : Op := { replica := rA, clock := 1, key := kW, value := none }

def exGapOp : Op := { replica := rA, clock := 3, key := kW, value := none }

def goodDeltaBytes : List Nat := [1, 1, 1, 97, 1, 1, 107, 0]

def gapDeltaBytes : List Nat := [1, 1, 1, 97, 3, 1, 107, 0]

def badDeltaBytes : List Nat := [9, 9]

theorem applyUpdate_reject_atomic_witness :
    applyUpdateBytes [] badDeltaBytes = Except.error VaultError.malformedDelta ∧
    applyUpdateBytes [] gapDeltaBytes = Except.error VaultError.malformedDelta ∧
    applyUpdateBytes [] goodDeltaBytes = Except.ok [exWireOp] :=
  ⟨(applyUpdate_reject_atomic [] badDeltaBytes).1 (by decide),
   (applyUpdate_reject_atomic [] gapDeltaBytes).2.1 [exGapOp] (by decide) (by decide),
   (applyUpdate_reject_atomic [] goodDeltaBytes).2.2 [exWireOp] (by decide) (by decide)⟩

end PCI
